import Mathlib

/-!
Verification development for the Polymarket BTC 5-minute trader
(`btc5m_trader.py`).  The order-book execution-risk engine (`walk_book`,
`analyze_book`), the run-phase gating (`run`), the token-identifier
extraction of `discover`, and the configuration load/update logic are
embedded as executable Lean definitions over exact rationals (the Python
source uses IEEE floats; the spec's numeric statements are "within
floating-point tolerance", so the rational model is the faithful exact
semantics).  Ask/bid levels are `(price, size)` pairs of rationals.
-/

namespace Btc5m

/-- Ask or bid level: `(price, size)`, both rational. -/
abbrev Level := ℚ × ℚ

/-- Ordering relation used by `walk_book`'s defensive sort: ascending by
price (the Python code sorts with `key=lambda x: float(x.get("price", 1))`). -/
def priceLE (a b : Level) : Prop := a.1 ≤ b.1

instance : DecidableRel priceLE := fun a b => inferInstanceAs (Decidable (a.1 ≤ b.1))

instance : IsTotal Level priceLE := ⟨fun a b => le_total a.1 b.1⟩

instance : IsTrans Level priceLE := ⟨fun _ _ _ => le_trans⟩

/-- Stable ascending-by-price sort, modelling Python's stable `sorted`. -/
def sortByPrice (asks : List Level) : List Level := asks.insertionSort priceLE

/-- Loop body of `walk_book` (lines 179-194): walk the (already sorted)
levels, skipping non-positive price or size, consuming whole levels while
affordable and a partial fraction `remaining / price` at the first
unaffordable level, then stopping. -/
def walkAux : List Level → ℚ → ℚ → ℚ → ℚ × ℚ
  | [], _, total_shares, total_cost => (total_shares, total_cost)
  | (price, size) :: rest, remaining, total_shares, total_cost =>
    if price ≤ 0 ∨ size ≤ 0 then
      walkAux rest remaining total_shares total_cost
    else if price * size ≤ remaining then
      walkAux rest (remaining - price * size) (total_shares + size)
        (total_cost + price * size)
    else
      (total_shares + remaining / price, total_cost + remaining)

/-- Embedding of `walk_book(asks, usdc_budget)`: sort ascending by price,
then walk.  Returns `(total_shares, total_cost)`. -/
def walk_book (asks : List Level) (usdc_budget : ℚ) : ℚ × ℚ :=
  walkAux (sortByPrice asks) usdc_budget 0 0

/-- Rounding to `d` decimal digits, modelling Python's `round(x, d)`. -/
def roundTo (d : ℕ) (q : ℚ) : ℚ := (round (q * 10 ^ d) : ℚ) / 10 ^ d

/-- Python truthiness of an optional float: `None` and `0.0` are falsy. -/
def truthy : Option ℚ → Bool
  | none => false
  | some q => q != 0

/-- Warnings emitted by `analyze_book`, identified by kind (the Python code
produces formatted strings; only the kind is policy-relevant). -/
inductive Warning
  | blocked
  | highSlippage
  | insufficientLiquidity
deriving DecidableEq, Repr

/-- Result record of `analyze_book` (lines 224-234). -/
structure BookAnalysis where
  best_ask : Option ℚ
  best_bid : Option ℚ
  ask_depth : ℚ
  shares : ℚ
  actual_cost : ℚ
  avg_price : Option ℚ
  slippage_pct : ℚ
  warnings : List Warning
  blocked : Bool
deriving DecidableEq, Repr

/-- Warning block of `analyze_book` (lines 216-222): a `BLOCKED` warning when
slippage strictly exceeds the block threshold, else a high-slippage warning
when it strictly exceeds the warn threshold; separately an insufficient
liquidity warning when the achieved cost is below 99% of the requested
budget. -/
def policyWarnings (slippage cost usdc_size warnT blockT : ℚ) : List Warning :=
  (if blockT < slippage then [Warning.blocked]
   else if warnT < slippage then [Warning.highSlippage]
   else []) ++
  (if cost < usdc_size * (99 / 100) then [Warning.insufficientLiquidity] else [])

/-- Embedding of the pure body of `analyze_book(token_id, usdc_size)`
(lines 203-234), parameterised by the fetched snapshot `(asks, bids)` and
by the two slippage thresholds read from `cfg`. -/
def analyze_book (asks bids : List Level) (usdc_size warnT blockT : ℚ) :
    BookAnalysis :=
  let best_ask : Option ℚ := asks.head?.map (·.1)
  let best_bid : Option ℚ := bids.head?.map (·.1)
  let ask_depth : ℚ := (asks.map (fun o => o.1 * o.2)).sum
  let sc := walk_book asks usdc_size
  let shares := sc.1
  let cost := sc.2
  let avg_price : Option ℚ := if 0 < shares then some (cost / shares) else none
  let slippage : ℚ :=
    if truthy best_ask && truthy avg_price then
      roundTo 2 ((avg_price.getD 0 - best_ask.getD 0) / best_ask.getD 0 * 100)
    else 0
  let warnings : List Warning := policyWarnings slippage cost usdc_size warnT blockT
  { best_ask := best_ask
    best_bid := best_bid
    ask_depth := roundTo 2 ask_depth
    shares := roundTo 4 shares
    actual_cost := roundTo 4 cost
    avg_price := if truthy avg_price then (avg_price.map (roundTo 4)) else none
    slippage_pct := slippage
    warnings := warnings
    blocked := decide (blockT < slippage) }

/-- Total visible ask depth: sum over levels of price × size (line 208). -/
def askDepth (asks : List Level) : ℚ := (asks.map (fun o => o.1 * o.2)).sum

/-- Sum of the sizes of all levels. -/
def totalSize (asks : List Level) : ℚ := (asks.map (·.2)).sum

/-- Well-formed level: positive price and positive size. -/
def isWellFormed (l : Level) : Bool := decide (0 < l.1 ∧ 0 < l.2)

/-! ### Walk lemmas -/

lemma walkAux_cons_congr {t1 t2 : List Level}
    (h : ∀ r s c, walkAux t1 r s c = walkAux t2 r s c) (x : Level) (r s c : ℚ) :
    walkAux (x :: t1) r s c = walkAux (x :: t2) r s c := by
  simp only [walkAux]
  split_ifs <;> first | exact h .. | rfl

lemma walkAux_swap (p s t : ℚ) (rest : List Level) (r S C : ℚ) :
    walkAux ((p, s) :: (p, t) :: rest) r S C
      = walkAux ((p, t) :: (p, s) :: rest) r S C := by
  by_cases hp : p ≤ 0
  · simp [walkAux, hp]
  · push_neg at hp
    have hpn : p ≠ 0 := ne_of_gt hp
    by_cases hs : s ≤ 0 <;> by_cases ht : t ≤ 0
    · simp [walkAux, hs, ht]
    · push_neg at ht
      simp [walkAux, hs, hp.not_le, ht.not_le]
    · push_neg at hs
      simp [walkAux, ht, hp.not_le, hs.not_le]
    · push_neg at hs ht
      have hc₁ : ¬(p ≤ 0 ∨ s ≤ 0) := by push_neg; exact ⟨hp, hs⟩
      have hc₂ : ¬(p ≤ 0 ∨ t ≤ 0) := by push_neg; exact ⟨hp, ht⟩
      have hps : 0 < p * s := mul_pos hp hs
      have hpt : 0 < p * t := mul_pos hp ht
      simp only [walkAux, if_neg hc₁, if_neg hc₂]
      rcases le_or_lt (p * s + p * t) r with h1 | h1
      · have h2 : p * s ≤ r := by linarith
        have h3 : p * t ≤ r := by linarith
        have h4 : p * t ≤ r - p * s := by linarith
        have h5 : p * s ≤ r - p * t := by linarith
        rw [if_pos h2, if_pos h3, if_pos h4, if_pos h5,
          show r - p * s - p * t = r - p * t - p * s by ring,
          show S + s + t = S + t + s by ring,
          show C + p * s + p * t = C + p * t + p * s by ring]
      · by_cases h2 : p * s ≤ r <;> by_cases h3 : p * t ≤ r
        · have h4 : ¬(p * t ≤ r - p * s) := by intro h; linarith
          have h5 : ¬(p * s ≤ r - p * t) := by intro h; linarith
          rw [if_pos h2, if_pos h3, if_neg h4, if_neg h5]
          simp only [Prod.mk.injEq]
          constructor <;> [field_simp; skip] <;> ring
        · have h4 : ¬(p * t ≤ r - p * s) := by intro h; linarith
          rw [if_pos h2, if_neg h3, if_neg h4]
          simp only [Prod.mk.injEq]
          constructor <;> [field_simp; skip] <;> ring
        · have h5 : ¬(p * s ≤ r - p * t) := by intro h; linarith
          rw [if_neg h2, if_pos h3, if_neg h5]
          simp only [Prod.mk.injEq]
          constructor <;> [field_simp; skip] <;> ring
        · rw [if_neg h2, if_neg h3]

lemma walkAux_swap_eq_price (x y : Level) (hxy : x.1 = y.1) (rest : List Level)
    (r s c : ℚ) :
    walkAux (x :: y :: rest) r s c = walkAux (y :: x :: rest) r s c := by
  obtain ⟨x1, x2⟩ := x
  obtain ⟨y1, y2⟩ := y
  simp only at hxy
  subst hxy
  exact walkAux_swap x1 x2 y2 rest r s c

lemma walkAux_bubble (p : ℚ) :
    ∀ (u : List Level) (x y : Level), x.1 = p → y.1 = p → (∀ a ∈ u, a.1 = p) →
      ∀ (v : List Level) (r s c : ℚ),
        walkAux (x :: (u ++ y :: v)) r s c = walkAux (y :: x :: (u ++ v)) r s c := by
  intro u
  induction u with
  | nil =>
    intro x y hx hy _ v r s c
    exact walkAux_swap_eq_price x y (hx.trans hy.symm) v r s c
  | cons a u' ih =>
    intro x y hx hy hu v r s c
    have ha : a.1 = p := hu a (List.mem_cons_self a u')
    have hu' : ∀ b ∈ u', b.1 = p := fun b hb => hu b (List.mem_cons_of_mem a hb)
    calc walkAux (x :: (a :: u') ++ y :: v) r s c
        = walkAux (a :: (x :: (u' ++ y :: v))) r s c :=
          walkAux_swap_eq_price x a (hx.trans ha.symm) _ r s c
      _ = walkAux (a :: (y :: x :: (u' ++ v))) r s c :=
          walkAux_cons_congr (fun r' s' c' => ih x y hx hy hu' v r' s' c') a r s c
      _ = walkAux (y :: (a :: x :: (u' ++ v))) r s c :=
          walkAux_swap_eq_price a y (ha.trans hy.symm) _ r s c
      _ = walkAux (y :: (x :: a :: (u' ++ v))) r s c :=
          walkAux_cons_congr
            (fun r' s' c' => walkAux_swap_eq_price a x (ha.trans hx.symm) _ r' s' c')
            y r s c
      _ = walkAux (y :: x :: ((a :: u') ++ v)) r s c := rfl

lemma walkAux_perm_of_sorted :
    ∀ (n : ℕ) (l1 l2 : List Level), l1.length ≤ n → l1.Perm l2 →
      l1.Sorted priceLE → l2.Sorted priceLE →
      ∀ r s c, walkAux l1 r s c = walkAux l2 r s c := by
  intro n
  induction n with
  | zero =>
    intro l1 l2 hlen hperm _ _ r s c
    have h1 : l1 = [] := List.eq_nil_of_length_eq_zero (Nat.le_zero.mp hlen)
    subst h1
    have h2 : l2 = [] := hperm.symm.eq_nil
    subst h2
    rfl
  | succ n ih =>
    intro l1 l2 hlen hperm hs1 hs2 r s c
    match l1, l2 with
    | [], l2 =>
      have h2 : l2 = [] := hperm.symm.eq_nil
      subst h2; rfl
    | x :: t1, [] => exact absurd hperm.eq_nil (by simp)
    | x :: t1, y :: t2 =>
      have hxy : x.1 = y.1 := by
        have hym : y ∈ x :: t1 := hperm.symm.subset (List.mem_cons_self y t2)
        have hxm : x ∈ y :: t2 := hperm.subset (List.mem_cons_self x t1)
        rcases List.mem_cons.mp hym with h | h
        · rw [h]
        · rcases List.mem_cons.mp hxm with h' | h'
          · rw [h']
          · exact le_antisymm ((List.sorted_cons.mp hs1).1 y h)
              ((List.sorted_cons.mp hs2).1 x h')
      by_cases hxyeq : x = y
      · subst hxyeq
        have hperm' : t1.Perm t2 := hperm.cons_inv
        exact walkAux_cons_congr
          (fun r' s' c' => ih t1 t2 (Nat.le_of_succ_le_succ hlen) hperm'
            (List.sorted_cons.mp hs1).2 (List.sorted_cons.mp hs2).2 r' s' c') x r s c
      · have hym : y ∈ t1 := by
          have := hperm.symm.subset (List.mem_cons_self y t2)
          rcases List.mem_cons.mp this with h | h
          · exact absurd h.symm hxyeq
          · exact h
        obtain ⟨u, v, huv⟩ := List.append_of_mem hym
        subst huv
        have hhead : ∀ b ∈ u ++ y :: v, priceLE x b := (List.sorted_cons.mp hs1).1
        have htail : (u ++ y :: v).Sorted priceLE := (List.sorted_cons.mp hs1).2
        have hu : ∀ a ∈ u, a.1 = x.1 := by
          intro a hau
          have h1 : x.1 ≤ a.1 := hhead a (List.mem_append_left _ hau)
          have h2 : a.1 ≤ y.1 :=
            (List.pairwise_append.mp htail).2.2 a hau y (List.mem_cons_self y v)
          exact le_antisymm (hxy ▸ h2) h1
        have step1 : walkAux (x :: (u ++ y :: v)) r s c
            = walkAux (y :: x :: (u ++ v)) r s c :=
          walkAux_bubble x.1 u x y rfl hxy.symm hu v r s c
        have hperm' : (x :: (u ++ v)).Perm t2 := by
          have hmid : (x :: (u ++ y :: v)).Perm (y :: x :: (u ++ v)) :=
            (List.perm_middle.cons x).trans (List.Perm.swap y x (u ++ v))
          exact (hmid.symm.trans hperm).cons_inv
        have hsub : (x :: (u ++ v)).Sublist (x :: (u ++ y :: v)) :=
          List.Sublist.cons₂ x (List.Sublist.append_left (List.sublist_cons_self y v) u)
        have hsort' : (x :: (u ++ v)).Sorted priceLE := hs1.sublist hsub
        have hlen' : (x :: (u ++ v)).length ≤ n := by
          simp only [List.length_cons, List.length_append] at hlen ⊢
          omega
        have step2 : walkAux (y :: x :: (u ++ v)) r s c = walkAux (y :: t2) r s c :=
          walkAux_cons_congr
            (fun r' s' c' => ih (x :: (u ++ v)) t2 hlen' hperm' hsort'
              (List.sorted_cons.mp hs2).2 r' s' c') y r s c
        exact step1.trans step2

/-- Output of `walk_book` is invariant under permutation of the input levels. -/
lemma walk_book_perm {a1 a2 : List Level} (h : a1.Perm a2) (b : ℚ) :
    walk_book a1 b = walk_book a2 b :=
  walkAux_perm_of_sorted (sortByPrice a1).length (sortByPrice a1) (sortByPrice a2)
    le_rfl
    ((List.perm_insertionSort priceLE a1).trans
      (h.trans (List.perm_insertionSort priceLE a2).symm))
    (List.sorted_insertionSort priceLE a1) (List.sorted_insertionSort priceLE a2)
    b 0 0

lemma walkAux_filter : ∀ (l : List Level) (r s c : ℚ),
    walkAux l r s c = walkAux (l.filter isWellFormed) r s c := by
  intro l
  induction l with
  | nil => intro r s c; rfl
  | cons x t ih =>
    intro r s c
    obtain ⟨p, q⟩ := x
    by_cases hx : p ≤ 0 ∨ q ≤ 0
    · have hwf : ¬(isWellFormed (p, q) = true) := by
        simp only [isWellFormed, decide_eq_true_eq, not_and, not_lt]
        intro h1
        rcases hx with h | h
        · exact absurd h1 h.not_lt
        · exact h
      rw [List.filter_cons, if_neg hwf]
      simp only [walkAux, if_pos hx]
      exact ih r s c
    · have hwf : isWellFormed (p, q) = true := by
        push_neg at hx
        simp only [isWellFormed, decide_eq_true_eq]
        exact ⟨hx.1, hx.2⟩
      rw [List.filter_cons, if_pos hwf]
      exact walkAux_cons_congr (fun r' s' c' => ih r' s' c') (p, q) r s c

/-- Skipping malformed levels equals filtering them away up front. -/
lemma walk_book_filter (asks : List Level) (b : ℚ) :
    walk_book asks b = walk_book (asks.filter isWellFormed) b := by
  unfold walk_book
  rw [walkAux_filter (sortByPrice asks)]
  exact walkAux_perm_of_sorted ((sortByPrice asks).filter isWellFormed).length _ _
    le_rfl
    (((List.perm_insertionSort priceLE asks).filter isWellFormed).trans
      (List.perm_insertionSort priceLE (asks.filter isWellFormed)).symm)
    ((List.sorted_insertionSort priceLE asks).sublist (List.filter_sublist _))
    (List.sorted_insertionSort priceLE (asks.filter isWellFormed)) b 0 0

/-- Modelled from the claim's words (C1): walk the given levels in order,
consuming whole levels while affordable and a partial fraction
`remaining / price` at the first unaffordable level. -/
def claimWalk : List Level → ℚ → ℚ × ℚ
  | [], _ => (0, 0)
  | (price, size) :: rest, budget =>
    if price * size ≤ budget then
      ((claimWalk rest (budget - price * size)).1 + size,
        (claimWalk rest (budget - price * size)).2 + price * size)
    else (budget / price, budget)

lemma walkAux_eq_claimWalk :
    ∀ (l : List Level), (∀ a ∈ l, 0 < a.1 ∧ 0 < a.2) → ∀ r s c,
      walkAux l r s c = (s + (claimWalk l r).1, c + (claimWalk l r).2) := by
  intro l
  induction l with
  | nil => intro _ r s c; simp [walkAux, claimWalk]
  | cons x t ih =>
    intro hwf r s c
    obtain ⟨p, q⟩ := x
    have hp : 0 < p := (hwf (p, q) (List.mem_cons_self _ t)).1
    have hq : 0 < q := (hwf (p, q) (List.mem_cons_self _ t)).2
    have hc : ¬(p ≤ 0 ∨ q ≤ 0) := by push_neg; exact ⟨hp, hq⟩
    have hwf' : ∀ a ∈ t, 0 < a.1 ∧ 0 < a.2 :=
      fun a ha => hwf a (List.mem_cons_of_mem _ ha)
    simp only [walkAux, claimWalk, if_neg hc]
    by_cases h : p * q ≤ r
    · rw [if_pos h, if_pos h, ih hwf' (r - p * q) (s + q) (c + p * q)]
      simp only [Prod.mk.injEq]
      constructor <;> ring
    · rw [if_neg h, if_neg h]

lemma askDepth_cons (x : Level) (t : List Level) :
    askDepth (x :: t) = x.1 * x.2 + askDepth t := by
  simp [askDepth]

lemma totalSize_cons (x : Level) (t : List Level) :
    totalSize (x :: t) = x.2 + totalSize t := by
  simp [totalSize]

lemma askDepth_nonneg (l : List Level) (h : ∀ a ∈ l, 0 < a.1 ∧ 0 < a.2) :
    0 ≤ askDepth l := by
  induction l with
  | nil => simp [askDepth]
  | cons x t ih =>
    rw [askDepth_cons]
    have hx := h x (List.mem_cons_self x t)
    have := ih (fun a ha => h a (List.mem_cons_of_mem x ha))
    nlinarith [mul_pos hx.1 hx.2]

lemma claimWalk_cost_eq_budget :
    ∀ (l : List Level), (∀ a ∈ l, 0 < a.1 ∧ 0 < a.2) → ∀ r, 0 ≤ r →
      r ≤ askDepth l → (claimWalk l r).2 = r := by
  intro l
  induction l with
  | nil =>
    intro _ r hr0 hrd
    simp only [askDepth, List.map_nil, List.sum_nil] at hrd
    simp [claimWalk]
    linarith
  | cons x t ih =>
    intro hwf r hr0 hrd
    obtain ⟨p, q⟩ := x
    rw [askDepth_cons] at hrd
    have hwf' : ∀ a ∈ t, 0 < a.1 ∧ 0 < a.2 :=
      fun a ha => hwf a (List.mem_cons_of_mem _ ha)
    simp only [claimWalk]
    by_cases h : p * q ≤ r
    · rw [if_pos h]
      have := ih hwf' (r - p * q) (by linarith) (by simpa using by linarith : r - p * q ≤ askDepth t)
      rw [this]
      ring
    · rw [if_neg h]

lemma claimWalk_over_depth :
    ∀ (l : List Level), (∀ a ∈ l, 0 < a.1 ∧ 0 < a.2) → ∀ r, askDepth l < r →
      claimWalk l r = (totalSize l, askDepth l) := by
  intro l
  induction l with
  | nil => intro _ r _; simp [claimWalk, totalSize, askDepth]
  | cons x t ih =>
    intro hwf r hrd
    obtain ⟨p, q⟩ := x
    rw [askDepth_cons] at hrd
    have hwf' : ∀ a ∈ t, 0 < a.1 ∧ 0 < a.2 :=
      fun a ha => hwf a (List.mem_cons_of_mem _ ha)
    have hdt : 0 ≤ askDepth t := askDepth_nonneg t hwf'
    have h : p * q ≤ r := by simp only at hrd; linarith
    simp only [claimWalk, if_pos h]
    rw [ih hwf' (r - p * q) (by simp only at hrd ⊢; linarith)]
    rw [askDepth_cons, totalSize_cons]
    simp only [Prod.mk.injEq]
    constructor <;> ring

lemma walkAux_cost_ge (b : ℚ) :
    ∀ (l : List Level), (∀ a ∈ l, b ≤ a.1) → ∀ r s c, 0 ≤ r →
      c + b * ((walkAux l r s c).1 - s) ≤ (walkAux l r s c).2 := by
  intro l
  induction l with
  | nil => intro _ r s c _; simp [walkAux]
  | cons x t ih =>
    intro hbl r s c hr
    obtain ⟨p, q⟩ := x
    have hbp : b ≤ p := hbl (p, q) (List.mem_cons_self _ t)
    have hbl' : ∀ a ∈ t, b ≤ a.1 := fun a ha => hbl a (List.mem_cons_of_mem _ ha)
    simp only [walkAux]
    by_cases hx : p ≤ 0 ∨ q ≤ 0
    · rw [if_pos hx]
      exact ih hbl' r s c hr
    · push_neg at hx
      rw [if_neg (by push_neg; exact hx)]
      by_cases h : p * q ≤ r
      · rw [if_pos h]
        have step := ih hbl' (r - p * q) (s + q) (c + p * q) (by linarith)
        have hq : 0 < q := hx.2
        nlinarith [step]
      · rw [if_neg h]
        have hp : 0 < p := hx.1
        have h1 : b * (r / p) ≤ p * (r / p) :=
          mul_le_mul_of_nonneg_right hbp (div_nonneg hr hp.le)
        have h2 : p * (r / p) = r := by field_simp
        simp only
        nlinarith [h1, h2]

lemma roundTo_nonneg (d : ℕ) (q : ℚ) (h : 0 ≤ q) : 0 ≤ roundTo d q := by
  unfold roundTo
  have hpow : (0:ℚ) < 10 ^ d := by positivity
  have harg : (0:ℚ) ≤ q * 10 ^ d := mul_nonneg h hpow.le
  have hr : (0:ℤ) ≤ round (q * 10 ^ d) := by
    rw [round_eq]
    exact Int.floor_nonneg.mpr (by linarith)
  have : (0:ℚ) ≤ (round (q * 10 ^ d) : ℚ) := by exact_mod_cast hr
  positivity

lemma roundTo_zero (d : ℕ) : roundTo d 0 = 0 := by
  simp [roundTo]

lemma blocked_mem_policyWarnings (slippage cost usdc_size warnT blockT : ℚ) :
    Warning.blocked ∈ policyWarnings slippage cost usdc_size warnT blockT ↔
      blockT < slippage := by
  unfold policyWarnings
  split_ifs <;> simp_all

lemma highSlippage_mem_policyWarnings (slippage cost usdc_size warnT blockT : ℚ) :
    Warning.highSlippage ∈ policyWarnings slippage cost usdc_size warnT blockT ↔
      (¬blockT < slippage ∧ warnT < slippage) := by
  unfold policyWarnings
  split_ifs <;> simp_all

lemma insuff_mem_policyWarnings (slippage cost usdc_size warnT blockT : ℚ) :
    Warning.insufficientLiquidity ∈ policyWarnings slippage cost usdc_size warnT blockT ↔
      cost < usdc_size * (99 / 100) := by
  unfold policyWarnings
  split_ifs <;> simp_all

/-- Shape of the policy fields of `analyze_book`: the warnings list is the
policy block applied to the reported slippage and the achieved cost, and the
blocked flag is exactly the strict block-threshold comparison. -/
lemma analyze_book_policy_fields (asks bids : List Level) (usdc_size warnT blockT : ℚ) :
    (analyze_book asks bids usdc_size warnT blockT).warnings =
      policyWarnings (analyze_book asks bids usdc_size warnT blockT).slippage_pct
        (walk_book asks usdc_size).2 usdc_size warnT blockT ∧
    (analyze_book asks bids usdc_size warnT blockT).blocked =
      decide (blockT < (analyze_book asks bids usdc_size warnT blockT).slippage_pct) :=
  ⟨rfl, rfl⟩

/-! ### Run-phase model (discovery gate, slippage gate, execution) -/

/-- Market-window record returned by `discover` (lines 161-168). -/
structure Market where
  title : String
  yes_token : String
  no_token : String
  end_time : String
  seconds_remaining : ℤ
  liquidity : ℚ
deriving DecidableEq, Repr

/-- Typed configuration as consumed by `run` (the six `CONFIG_SCHEMA`
tunables with their declared types). -/
structure Config where
  default_size : ℚ
  order_type : String
  slippage_warn : ℚ
  slippage_block : ℚ
  min_time_remaining : ℤ
  sig_type : ℤ
deriving DecidableEq, Repr

/-- The `--side` choice (argparse restricts to BUY or SELL, default BUY). -/
inductive Side
  | BUY
  | SELL
deriving DecidableEq, Repr

/-- Command-line arguments of the trading path (lines 439-452); `otype`
models `args.type`. -/
structure Args where
  live : Bool
  book : Bool
  orders : Bool
  cancel : Option String
  side : Side
  price : Option ℚ
  size : Option ℚ
  otype : Option String
  force : Bool
  config : Bool
deriving DecidableEq, Repr

/-- Python truthiness of an optional string: `None` and `""` are falsy. -/
def truthyStr : Option String → Bool
  | none => false
  | some s => s != ""

/-- Python `x or d` for an optional float `x` (`None` and `0.0` are falsy). -/
def pyOrQ (x : Option ℚ) (d : ℚ) : ℚ :=
  match x with
  | none => d
  | some v => if v = 0 then d else v

/-- Python `x or d` for an optional string (`None` and `""` are falsy). -/
def pyOrStr (x : Option String) (d : String) : String :=
  match x with
  | none => d
  | some s => if s = "" then d else s

/-- Return points of `run(args)` (lines 306-432), one constructor per
`return` site. -/
inductive RunOutcome
  | showedConfig
  | listedOrders
  | cancelled
  | discoverFailed (msg : String)
  | windowTooShort
  | bookFailed (msg : String)
  | slippageBlocked
  | bookOnly
  | gtcNeedsPrice
  | dryRun
  | placed
deriving DecidableEq, Repr

/-- Token chosen by `run` (line 362): YES token on BUY, NO token on SELL. -/
def chosenToken (a : Args) (m : Market) : String :=
  if a.side = Side.BUY then m.yes_token else m.no_token

/-- Order size chosen by `run` (line 364): `args.size or cfg["default_size"]`. -/
def chosenSize (c : Config) (a : Args) : ℚ := pyOrQ a.size c.default_size

/-- Control-flow skeleton of `run(args)` (lines 306-432): each constructor of
`RunOutcome` is one of the return points.  Discovery and book analysis are
the two external reads, passed in as `disc` and `fetchAnalyze`; printing is
dropped.  The window gate (line 356) fires before the book is ever consulted,
and the force flag is consulted only at the slippage gate (line 382). -/
def run (c : Config) (a : Args) (disc : Except String Market)
    (fetchAnalyze : String → ℚ → Except String BookAnalysis) : RunOutcome :=
  if a.config then .showedConfig
  else if a.orders then .listedOrders
  else if truthyStr a.cancel then .cancelled
  else
    match disc with
    | .error e => .discoverFailed e
    | .ok market =>
      if market.seconds_remaining < c.min_time_remaining then .windowTooShort
      else
        match fetchAnalyze (chosenToken a market) (chosenSize c a) with
        | .error e => .bookFailed e
        | .ok book =>
          if book.blocked && !a.force then .slippageBlocked
          else if a.book then .bookOnly
          else
            let order_type := (pyOrStr a.otype c.order_type).toUpper
            if order_type = "GTC" && !(truthy a.price) then .gtcNeedsPrice
            else if !a.live then .dryRun
            else .placed

/-! ### Token-identifier extraction of `discover` -/

/-- Market object fields used by the token-extraction step of `discover`
(lines 139-151): `clobTokenIds` after the `or []` / JSON-string decoding
(`none` models an absent or falsy field or a string that fails to decode;
the code turns all of those into `[]`), and `outcomes` as the list of
per-outcome `clobTokenId` fields (`none` for an outcome lacking the field,
which `o.get(..., "")` turns into `""`). -/
structure MarketObj where
  clobTokenIds : Option (List String)
  outcomes : Option (List (Option String))
deriving DecidableEq, Repr

/-- Token-identifier candidates (lines 139-148): the structured list when it
has at least two entries, else the per-outcome fallback. -/
def extractIds (m : MarketObj) : List String :=
  let ids := m.clobTokenIds.getD []
  if ids.length < 2 then (m.outcomes.getD []).map (fun o => o.getD "")
  else ids

/-- Final guard and result of the extraction (lines 150-151, 163-164):
`none` models the `MalformedMarket` failure return, `some (yes, no)` the
token pair placed in the market record. -/
def extractTokens (m : MarketObj) : Option (String × String) :=
  let ids := extractIds m
  if ids.length < 2 ∨ ids.headD "" = "" then none
  else some (ids.headD "", ids.getD 1 "")

/-! ### Configuration load and update -/

/-- JSON value stored in the config file. -/
inductive JVal
  | jint (n : ℤ)
  | jfloat (q : ℚ)
  | jstr (s : String)
deriving DecidableEq, Repr

/-- Declared type of a config schema entry. -/
inductive CType
  | cfloat
  | cint
  | cstr
deriving DecidableEq, Repr

/-- One entry of `CONFIG_SCHEMA` (lines 37-44). -/
structure SchemaEntry where
  key : String
  ty : CType
  dflt : JVal
  envName : String
deriving DecidableEq, Repr

/-- Embedding of `CONFIG_SCHEMA` (lines 37-44). -/
def CONFIG_SCHEMA : List SchemaEntry :=
  [⟨"default_size", .cfloat, .jfloat 25, "POLY_DEFAULT_SIZE"⟩,
   ⟨"order_type", .cstr, .jstr "GTC", "POLY_ORDER_TYPE"⟩,
   ⟨"slippage_warn", .cfloat, .jfloat 3, "POLY_SLIPPAGE_WARN"⟩,
   ⟨"slippage_block", .cfloat, .jfloat 5, "POLY_SLIPPAGE_BLOCK"⟩,
   ⟨"min_time_remaining", .cint, .jint 30, "POLY_MIN_TIME"⟩,
   ⟨"sig_type", .cint, .jint 1, "POLY_SIG_TYPE"⟩]

/-- Digit-string accumulator for the numeric-literal models. -/
def parseDigitsAux : List Char → ℕ → Option ℕ
  | [], acc => some acc
  | c :: cs, acc =>
    if c.isDigit then parseDigitsAux cs (acc * 10 + (c.toNat - 48)) else none

/-- Value of a non-empty all-digit character sequence. -/
def parseDigits (cs : List Char) : Option ℕ :=
  match cs with
  | [] => none
  | _ => parseDigitsAux cs 0

/-- Integer-and-fraction split of a decimal literal: characters before the
first dot, and those after it when a dot is present. -/
def splitOnDot : List Char → List Char × Option (List Char)
  | [] => ([], none)
  | c :: cs =>
    if c = '.' then ([], some cs)
    else
      let (a, b) := splitOnDot cs
      (c :: a, b)

/-- Unsigned part of the Python `float(str)` model. -/
def pyFloatCore (cs : List Char) : Option ℚ :=
  match splitOnDot cs with
  | (intPart, none) => (parseDigits intPart).map (fun n => (n : ℚ))
  | (intPart, some fracPart) =>
    match parseDigits intPart, parseDigits fracPart with
    | some n, some f => some ((n : ℚ) + (f : ℚ) / 10 ^ fracPart.length)
    | _, _ => none

/-- Modelled from the spec: Python's builtin `float(str)` (external to the
repository) on plain decimal literals — optional sign, digits, optional
dot and fractional digits; `none` models the `ValueError` on anything
else. -/
def pyFloat? (s : String) : Option ℚ :=
  match s.toList with
  | [] => none
  | c :: cs =>
    if c = '-' then (pyFloatCore cs).map (fun q => -q)
    else if c = '+' then pyFloatCore cs
    else pyFloatCore (c :: cs)

/-- Modelled from the spec: Python's builtin `int(str)` (external to the
repository) on plain integer literals — optional sign and digits. -/
def pyInt? (s : String) : Option ℤ :=
  match s.toList with
  | [] => none
  | c :: cs =>
    if c = '-' then (parseDigits cs).map (fun n => -(n : ℤ))
    else if c = '+' then (parseDigits cs).map (fun n => (n : ℤ))
    else (parseDigits (c :: cs)).map (fun n => (n : ℤ))

/-- Applying a schema entry's declared type to a raw string, as
`CONFIG_SCHEMA[k]["type"](v)` does; `none` models a conversion exception. -/
def coerceVal : CType → String → Option JVal
  | .cfloat, s => (pyFloat? s).map .jfloat
  | .cint, s => (pyInt? s).map .jint
  | .cstr, s => some (.jstr s)

/-- Python `dict.update` of one key on a JSON object represented as a
key-value list. -/
def dictUpdate (base : List (String × JVal)) (k : String) (v : JVal) :
    List (String × JVal) :=
  if base.any (fun kv => kv.1 == k) then
    base.map (fun kv => if kv.1 = k then (k, v) else kv)
  else base ++ [(k, v)]

/-- Embedding of `update_config(updates)` (lines 77-87): read the existing
file object, merge the updates into it, write it back. -/
def update_config (existing : List (String × JVal))
    (updates : List (String × JVal)) : List (String × JVal) :=
  updates.foldl (fun b kv => dictUpdate b kv.1 kv.2) existing

/-- Schema lookup by key, modelling `k in CONFIG_SCHEMA` /
`CONFIG_SCHEMA[k]`. -/
def schemaEntry? (k : String) : Option SchemaEntry :=
  CONFIG_SCHEMA.find? (fun e => e.key == k)

/-- Validation and coercion loop of the `--set` handler (lines 454-464):
any key outside the schema, or any failing coercion, aborts the run before
anything is written (`none`). -/
def buildUpdates : List (String × String) → Option (List (String × JVal))
  | [] => some []
  | (k, v) :: rest =>
    match schemaEntry? k with
    | none => none
    | some e =>
      match coerceVal e.ty v with
      | none => none
      | some jv =>
        match buildUpdates rest with
        | none => none
        | some us => some ((k, jv) :: us)

/-- The full `--set` handling (lines 454-467): validate and coerce all
items, then merge them into the existing file; `none` means the process
exits with the file unmodified. -/
def setCommand (items : List (String × String)) (file : List (String × JVal)) :
    Option (List (String × JVal)) :=
  (buildUpdates items).map (update_config file)

/-- Embedding of `load_config()` (lines 53-74): per schema key, take the
file value verbatim when present, else a set and non-empty environment
variable coerced to the declared type (falling back to the default on
coercion failure), else the built-in default. -/
def load_config (file : List (String × JVal)) (env : String → Option String) :
    List (String × JVal) :=
  CONFIG_SCHEMA.map (fun e =>
    (e.key,
      match file.lookup e.key with
      | some v => v
      | none =>
        match env e.envName with
        | some raw =>
          if raw = "" then e.dflt else (coerceVal e.ty raw).getD e.dflt
        | none => e.dflt))

lemma lookup_map_overwrite (k : String) (v : JVal) :
    ∀ (base : List (String × JVal)), base.any (fun kv => kv.1 == k) = true →
      (base.map (fun kv => if kv.1 = k then (k, v) else kv)).lookup k = some v := by
  intro base
  induction base with
  | nil => intro h; simp at h
  | cons a t ih =>
    intro hany
    obtain ⟨ak, av⟩ := a
    rw [List.map_cons]
    by_cases hk : ak = k
    · subst hk
      have hhead : (if ((ak, av) : String × JVal).1 = ak then (ak, v) else (ak, av))
          = (ak, v) := by simp
      rw [hhead]
      simp [List.lookup]
    · have ht : t.any (fun kv => kv.1 == k) = true := by
        simp only [List.any_cons, Bool.or_eq_true] at hany
        rcases hany with h | h
        · exact absurd (by simpa using h) hk
        · exact h
      have hhead : (if ((ak, av) : String × JVal).1 = k then (k, v) else (ak, av))
          = (ak, av) := by simp [hk]
      rw [hhead]
      have hkb : (k == ak) = false := beq_eq_false_iff_ne.mpr (Ne.symm hk)
      simp only [List.lookup, hkb]
      exact ih ht

lemma lookup_append_missing (k : String) (v : JVal) :
    ∀ (base : List (String × JVal)), base.any (fun kv => kv.1 == k) = false →
      (base ++ [(k, v)]).lookup k = some v := by
  intro base
  induction base with
  | nil => intro _; simp [List.lookup]
  | cons a t ih =>
    intro hany
    obtain ⟨ak, av⟩ := a
    simp only [List.any_cons, Bool.or_eq_false_iff] at hany
    have hne : ak ≠ k := by simpa using hany.1
    have hk : (k == ak) = false := beq_eq_false_iff_ne.mpr (Ne.symm hne)
    simp only [List.cons_append, List.lookup, hk]
    exact ih hany.2

/-- Looking up the just-written key in a merged config object yields the
written value. -/
lemma lookup_dictUpdate (base : List (String × JVal)) (k : String) (v : JVal) :
    (dictUpdate base k v).lookup k = some v := by
  unfold dictUpdate
  split_ifs with h
  · exact lookup_map_overwrite k v base h
  · exact lookup_append_missing k v base (by rwa [Bool.not_eq_true] at h)

/-- Slippage of the demonstration book `[(0.50, 20), (0.55, 30)]` at budget
20 is 4.76 regardless of the thresholds. -/
lemma demoBook_slippage (warnT blockT : ℚ) :
    (analyze_book [(1/2, 20), (11/20, 30)] [] 20 warnT blockT).slippage_pct
      = 119/25 := by
  norm_num [analyze_book, walk_book, sortByPrice, List.insertionSort,
    List.orderedInsert, priceLE, walkAux, truthy, roundTo, round_eq,
    Int.floor_eq_iff]

/-! ### Claim theorems -/

/-- C1: for ask levels with positive prices and sizes and a positive budget,
`walk_book` consumes levels in ascending price order exactly as the claim
describes (`claimWalk` on the price-sorted list: whole levels while
affordable, then a partial fraction `remaining / price` at the first
unaffordable level); when the budget is at most the total ask depth the
returned cost equals the budget exactly, and when it exceeds the total depth
the result is the sum of all sizes and the total depth.  Concretely, for
asks `[(0.50, 20), (0.55, 30)]` and budget `20`, `analyze_book` reports
shares `38.1818`, cost `20`, average price `0.5238` and slippage `4.76`
versus the best ask `0.50`. -/
theorem claim_C1 (asks : List Level) (budget : ℚ)
    (hwf : ∀ a ∈ asks, 0 < a.1 ∧ 0 < a.2) (hb : 0 < budget) :
    walk_book asks budget = claimWalk (sortByPrice asks) budget ∧
    (budget ≤ askDepth asks → (walk_book asks budget).2 = budget) ∧
    (askDepth asks < budget →
      walk_book asks budget = (totalSize asks, askDepth asks)) ∧
    analyze_book [(1/2, 20), (11/20, 30)] [] 20 3 5 =
      { best_ask := some (1/2), best_bid := none, ask_depth := 53/2,
        shares := 190909/5000, actual_cost := 20,
        avg_price := some (2619/5000), slippage_pct := 119/25,
        warnings := [Warning.highSlippage], blocked := false } := by
  have hwfs : ∀ a ∈ sortByPrice asks, 0 < a.1 ∧ 0 < a.2 := fun a ha =>
    hwf a ((List.perm_insertionSort priceLE asks).subset ha)
  have hmain : walk_book asks budget = claimWalk (sortByPrice asks) budget := by
    unfold walk_book
    rw [walkAux_eq_claimWalk (sortByPrice asks) hwfs budget 0 0]
    simp
  have hdepth : askDepth (sortByPrice asks) = askDepth asks :=
    ((List.perm_insertionSort priceLE asks).map _).sum_eq
  have hsize : totalSize (sortByPrice asks) = totalSize asks :=
    ((List.perm_insertionSort priceLE asks).map _).sum_eq
  refine ⟨hmain, ?_, ?_, ?_⟩
  · intro hle
    rw [hmain]
    exact claimWalk_cost_eq_budget _ hwfs budget hb.le (hdepth ▸ hle)
  · intro hgt
    rw [hmain, claimWalk_over_depth _ hwfs budget (hdepth ▸ hgt), hdepth, hsize]
  · norm_num [analyze_book, walk_book, sortByPrice, List.insertionSort,
      List.orderedInsert, priceLE, walkAux, truthy, roundTo, round_eq,
      Int.floor_eq_iff, policyWarnings]

/-- Witness for C1 at the concrete scenario book and budget. -/
theorem claim_C1_witness :
    (walk_book [((1:ℚ)/2, 20), (11/20, 30)] 20).2 = 20 :=
  (claim_C1 [((1:ℚ)/2, 20), (11/20, 30)] 20
    (by norm_num [List.forall_mem_cons]) (by norm_num)).2.1
    (by norm_num [askDepth])

/-- C3: the policy verdict of `analyze_book` uses strict comparisons:
slippage exactly at the block threshold neither sets the blocked flag nor
produces a BLOCKED warning; slippage strictly above the block threshold sets
the flag and produces the BLOCKED warning; slippage strictly above the warn
threshold but at most the block threshold produces only the non-blocking
high-slippage warning. -/
theorem claim_C3 (asks bids : List Level) (usdc_size warnT blockT : ℚ) :
    ((analyze_book asks bids usdc_size warnT blockT).slippage_pct = blockT →
      (analyze_book asks bids usdc_size warnT blockT).blocked = false ∧
      Warning.blocked ∉ (analyze_book asks bids usdc_size warnT blockT).warnings) ∧
    (blockT < (analyze_book asks bids usdc_size warnT blockT).slippage_pct →
      (analyze_book asks bids usdc_size warnT blockT).blocked = true ∧
      Warning.blocked ∈ (analyze_book asks bids usdc_size warnT blockT).warnings) ∧
    (warnT < (analyze_book asks bids usdc_size warnT blockT).slippage_pct →
      (analyze_book asks bids usdc_size warnT blockT).slippage_pct ≤ blockT →
      Warning.highSlippage ∈ (analyze_book asks bids usdc_size warnT blockT).warnings ∧
      Warning.blocked ∉ (analyze_book asks bids usdc_size warnT blockT).warnings ∧
      (analyze_book asks bids usdc_size warnT blockT).blocked = false) := by
  obtain ⟨hw, hbf⟩ := analyze_book_policy_fields asks bids usdc_size warnT blockT
  simp only [hw, hbf, blocked_mem_policyWarnings, highSlippage_mem_policyWarnings,
    decide_eq_true_eq, decide_eq_false_iff_not]
  refine ⟨?_, ?_, ?_⟩
  · intro he
    rw [he]
    exact ⟨lt_irrefl blockT, lt_irrefl blockT⟩
  · exact fun h => ⟨h, h⟩
  · intro h1 h2
    exact ⟨⟨not_lt.mpr h2, h1⟩, not_lt.mpr h2, not_lt.mpr h2⟩

/-- Witness for C3: the scenario book has slippage 4.76; with block
threshold exactly 4.76 nothing is blocked; with block threshold 4 the trade
is blocked with a BLOCKED warning; with warn 4 and block 5 only the
high-slippage warning appears. -/
theorem claim_C3_witness :
    ((analyze_book [(1/2, 20), (11/20, 30)] [] 20 3 (119/25)).blocked = false ∧
      Warning.blocked ∉ (analyze_book [(1/2, 20), (11/20, 30)] [] 20 3 (119/25)).warnings) ∧
    ((analyze_book [(1/2, 20), (11/20, 30)] [] 20 3 4).blocked = true ∧
      Warning.blocked ∈ (analyze_book [(1/2, 20), (11/20, 30)] [] 20 3 4).warnings) ∧
    (Warning.highSlippage ∈ (analyze_book [(1/2, 20), (11/20, 30)] [] 20 4 5).warnings ∧
      Warning.blocked ∉ (analyze_book [(1/2, 20), (11/20, 30)] [] 20 4 5).warnings ∧
      (analyze_book [(1/2, 20), (11/20, 30)] [] 20 4 5).blocked = false) :=
  ⟨(claim_C3 [(1/2, 20), (11/20, 30)] [] 20 3 (119/25)).1 (demoBook_slippage 3 (119/25)),
   (claim_C3 [(1/2, 20), (11/20, 30)] [] 20 3 4).2.1
     (by rw [demoBook_slippage 3 4]; norm_num),
   (claim_C3 [(1/2, 20), (11/20, 30)] [] 20 4 5).2.2
     (by rw [demoBook_slippage 4 5]; norm_num)
     (by rw [demoBook_slippage 4 5]; norm_num)⟩

/-- C4: `walk_book` sorts internally, so its output is identical for any two
ask lists that are permutations of each other. -/
theorem claim_C4 (a1 a2 : List Level) (budget : ℚ) (h : a1.Perm a2) :
    walk_book a1 budget = walk_book a2 budget :=
  walk_book_perm h budget

/-- Witness for C4 on a two-level book given in the two possible orders. -/
theorem claim_C4_witness :
    walk_book [((11:ℚ)/20, 30), (1/2, 20)] 20
      = walk_book [((1:ℚ)/2, 20), (11/20, 30)] 20 :=
  claim_C4 [((11:ℚ)/20, 30), (1/2, 20)] [((1:ℚ)/2, 20), (11/20, 30)] 20
    (List.Perm.swap ((1:ℚ)/2, 20) (11/20, 30) [])

/-- C5: `walk_book` skips levels with non-positive price or size, so its
result equals the result on the sublist of well-formed levels. -/
theorem claim_C5 (asks : List Level) (budget : ℚ) :
    walk_book asks budget = walk_book (asks.filter isWellFormed) budget :=
  walk_book_filter asks budget

/-- C10: the blocked flag of an `analyze_book` result is true exactly when a
BLOCKED warning is in its warnings list: both are computed from the same
strict slippage-above-block-threshold comparison. -/
theorem claim_C10 (asks bids : List Level) (usdc_size warnT blockT : ℚ) :
    ((analyze_book asks bids usdc_size warnT blockT).blocked = true ↔
      Warning.blocked ∈ (analyze_book asks bids usdc_size warnT blockT).warnings) := by
  obtain ⟨hw, hbf⟩ := analyze_book_policy_fields asks bids usdc_size warnT blockT
  rw [hw, hbf, blocked_mem_policyWarnings, decide_eq_true_eq]

/-- C2 as frozen is false on the code: a snapshot whose ask levels are all
well formed and carry no bids at all (hence nothing crossed), but whose
first level is not the cheapest, yields an average fill price strictly
below the reported best ask and a strictly negative reported slippage,
because `best_ask` is read from the unsorted first level while the walker
sorts. -/
theorem claim_C2_counterexample :
    ([((3:ℚ)/5, 10), (1/2, 10)] : List Level).all isWellFormed = true ∧
    (analyze_book [((3:ℚ)/5, 10), (1/2, 10)] [] 3 3 5).best_ask = some (3/5) ∧
    0 < (walk_book [((3:ℚ)/5, 10), (1/2, 10)] 3).1 ∧
    (walk_book [((3:ℚ)/5, 10), (1/2, 10)] 3).2 /
        (walk_book [((3:ℚ)/5, 10), (1/2, 10)] 3).1 < 3/5 ∧
    (analyze_book [((3:ℚ)/5, 10), (1/2, 10)] [] 3 3 5).slippage_pct < 0 := by
  refine ⟨by norm_num [isWellFormed], by norm_num [analyze_book], ?_, ?_, ?_⟩
  all_goals
    norm_num [analyze_book, walk_book, sortByPrice, List.insertionSort,
      List.orderedInsert, priceLE, walkAux, truthy, roundTo, round_eq,
      Int.floor_eq_iff]

/-- C2 (amended): for a snapshot whose ask levels are well formed and whose
first ask level carries the minimum ask price (in particular for any
ascending-sorted book), with a positive budget and positive achieved
shares, the average fill price `cost / shares` is at least the best ask
(the first level's price, as reported by `analyze_book`) and the reported
slippage is non-negative. -/
theorem claim_C2 (x : Level) (t bids : List Level) (usdc_size warnT blockT : ℚ)
    (hwf : ∀ a ∈ x :: t, 0 < a.1 ∧ 0 < a.2)
    (hmin : ∀ a ∈ x :: t, x.1 ≤ a.1)
    (hb : 0 < usdc_size)
    (hsh : 0 < (walk_book (x :: t) usdc_size).1) :
    (analyze_book (x :: t) bids usdc_size warnT blockT).best_ask = some x.1 ∧
    x.1 ≤ (walk_book (x :: t) usdc_size).2 / (walk_book (x :: t) usdc_size).1 ∧
    0 ≤ (analyze_book (x :: t) bids usdc_size warnT blockT).slippage_pct := by
  have hx1 : 0 < x.1 := (hwf x (List.mem_cons_self x t)).1
  have hpr : ∀ a ∈ sortByPrice (x :: t), x.1 ≤ a.1 := fun a ha =>
    hmin a ((List.perm_insertionSort priceLE (x :: t)).subset ha)
  have hkey' : x.1 * (walk_book (x :: t) usdc_size).1
      ≤ (walk_book (x :: t) usdc_size).2 := by
    have hkey := walkAux_cost_ge x.1 (sortByPrice (x :: t)) hpr usdc_size 0 0 hb.le
    unfold walk_book
    simpa using hkey
  have havg : x.1 ≤ (walk_book (x :: t) usdc_size).2 /
      (walk_book (x :: t) usdc_size).1 :=
    (le_div_iff₀ hsh).mpr hkey'
  have havgpos : 0 < (walk_book (x :: t) usdc_size).2 /
      (walk_book (x :: t) usdc_size).1 := lt_of_lt_of_le hx1 havg
  refine ⟨by simp [analyze_book], havg, ?_⟩
  simp only [analyze_book, List.head?_cons, Option.map_some']
  rw [if_pos hsh]
  have h1 : truthy (some x.1) = true := by
    simp only [truthy, bne_iff_ne, ne_eq, decide_eq_true_eq]
    exact ne_of_gt hx1
  have h2 : truthy (some ((walk_book (x :: t) usdc_size).2 /
      (walk_book (x :: t) usdc_size).1)) = true := by
    simp only [truthy, bne_iff_ne, ne_eq, decide_eq_true_eq]
    exact ne_of_gt havgpos
  rw [h1, h2]
  simp only [Bool.and_self, if_true, Option.getD_some]
  exact roundTo_nonneg 2 _
    (mul_nonneg (div_nonneg (sub_nonneg.mpr havg) hx1.le) (by norm_num))

/-- Witness for C2 (amended) at the ascending scenario book and budget 20. -/
theorem claim_C2_witness :
    (1:ℚ)/2 ≤ (walk_book [((1:ℚ)/2, 20), (11/20, 30)] 20).2 /
      (walk_book [((1:ℚ)/2, 20), (11/20, 30)] 20).1 :=
  (claim_C2 ((1:ℚ)/2, 20) [(11/20, 30)] [] 20 3 5
    (by norm_num [List.forall_mem_cons])
    (by norm_num [List.forall_mem_cons])
    (by norm_num)
    (by norm_num [walk_book, sortByPrice, List.insertionSort, List.orderedInsert,
      priceLE, walkAux])).2.1

/-- C6: `analyze_book` emits the insufficient-liquidity warning exactly when
the achieved cost is below 99% of the requested budget, independently of
slippage; that warning never sets the blocked flag (the flag tracks only the
slippage comparison); and an empty ask list with a positive budget yields
zero shares, zero cost, an undefined average price, zero slippage and the
insufficient-liquidity warning. -/
theorem claim_C6 (asks bids : List Level) (usdc_size warnT blockT : ℚ)
    (hb : 0 < usdc_size) :
    (Warning.insufficientLiquidity ∈
        (analyze_book asks bids usdc_size warnT blockT).warnings ↔
      (walk_book asks usdc_size).2 < usdc_size * (99/100)) ∧
    ((analyze_book asks bids usdc_size warnT blockT).blocked = true →
      blockT < (analyze_book asks bids usdc_size warnT blockT).slippage_pct) ∧
    (analyze_book [] bids usdc_size warnT blockT).shares = 0 ∧
    (analyze_book [] bids usdc_size warnT blockT).actual_cost = 0 ∧
    (analyze_book [] bids usdc_size warnT blockT).avg_price = none ∧
    (analyze_book [] bids usdc_size warnT blockT).slippage_pct = 0 ∧
    Warning.insufficientLiquidity ∈
      (analyze_book [] bids usdc_size warnT blockT).warnings := by
  obtain ⟨hw, hbf⟩ := analyze_book_policy_fields asks bids usdc_size warnT blockT
  obtain ⟨hw0, _⟩ := analyze_book_policy_fields [] bids usdc_size warnT blockT
  have hwalk0 : walk_book ([] : List Level) usdc_size = (0, 0) := rfl
  refine ⟨?_, ?_, ?_, ?_, ?_, ?_, ?_⟩
  · rw [hw, insuff_mem_policyWarnings]
  · rw [hbf]
    exact fun h => of_decide_eq_true h
  · simp [analyze_book, walk_book, sortByPrice, walkAux, roundTo]
  · simp [analyze_book, walk_book, sortByPrice, walkAux, roundTo]
  · simp [analyze_book, walk_book, sortByPrice, walkAux, truthy]
  · simp [analyze_book, walk_book, sortByPrice, walkAux, truthy]
  · rw [hw0, insuff_mem_policyWarnings, hwalk0]
    have : (0:ℚ) < usdc_size * (99/100) := mul_pos hb (by norm_num)
    simpa using this

/-- Witness for C6 at an empty book with budget 20. -/
theorem claim_C6_witness :
    Warning.insufficientLiquidity ∈ (analyze_book [] [] 20 3 5).warnings :=
  (claim_C6 [] [] 20 3 5 (by norm_num)).2.2.2.2.2.2

/-- C7: when the discovered window's remaining seconds are strictly below
the configured minimum, `run` returns the window-too-short refusal before
the book is ever consulted (for every book-analysis oracle) and regardless
of the force flag; the force flag overrides only the later slippage gate:
with a blocked book analysis, `run` refuses exactly when force is unset. -/
theorem claim_C7 (c : Config) (a : Args) (m : Market)
    (fetchAnalyze : String → ℚ → Except String BookAnalysis)
    (hconf : a.config = false) (hord : a.orders = false)
    (hcan : truthyStr a.cancel = false) :
    (m.seconds_remaining < c.min_time_remaining →
      run c a (Except.ok m) fetchAnalyze = RunOutcome.windowTooShort ∧
      run c { a with force := true } (Except.ok m) fetchAnalyze
        = RunOutcome.windowTooShort) ∧
    (c.min_time_remaining ≤ m.seconds_remaining →
      ∀ book, fetchAnalyze (chosenToken a m) (chosenSize c a) = Except.ok book →
        book.blocked = true →
        (a.force = false →
          run c a (Except.ok m) fetchAnalyze = RunOutcome.slippageBlocked) ∧
        (a.force = true →
          run c a (Except.ok m) fetchAnalyze ≠ RunOutcome.slippageBlocked)) := by
  constructor
  · intro hshort
    constructor
    · simp [run, hconf, hord, hcan, hshort]
    · simp [run, hconf, hord, hcan, hshort]
  · intro hlong book hbook hblocked
    constructor
    · intro hforce
      simp [run, hconf, hord, hcan, not_lt.mpr hlong, hbook, hblocked, hforce]
    · intro hforce hcontra
      simp only [run, hconf, hord, hcan, Bool.false_eq_true, if_false,
        not_lt.mpr hlong, hbook, hblocked, hforce] at hcontra
      split_ifs at hcontra
      all_goals simp_all

/-- Witness for C7: a window with 10 seconds left against a 30-second
minimum is refused even with the force flag set and a failing book oracle. -/
theorem claim_C7_witness :
    run ⟨25, "GTC", 3, 5, 30, 1⟩
      ⟨false, false, false, none, Side.BUY, none, none, none, true, false⟩
      (Except.ok ⟨"btc 5m", "YES-token", "NO-token", "later", 10, 0⟩)
      (fun _ _ => Except.error "unused")
      = RunOutcome.windowTooShort :=
  ((claim_C7 ⟨25, "GTC", 3, 5, 30, 1⟩
      ⟨false, false, false, none, Side.BUY, none, none, none, true, false⟩
      ⟨"btc 5m", "YES-token", "NO-token", "later", 10, 0⟩
      (fun _ _ => Except.error "unused") rfl rfl rfl).1 (by decide)).1

/-- C8 as frozen is false on the code: the guard checks only that at least
two identifiers exist and that the FIRST is non-empty, so a market object
whose structured list is `["a", ""]` — which carries fewer than two
non-empty identifiers — is not rejected, and the returned pair has an empty
second (NO-side) identifier. -/
theorem claim_C8_counterexample :
    ((extractIds ⟨some ["a", ""], none⟩).countP (fun s => s != "")) < 2 ∧
    extractTokens ⟨some ["a", ""], none⟩ = some ("a", "") := by
  refine ⟨?_, ?_⟩ <;> decide

/-- C8 (amended): the extraction fails (MalformedMarket) exactly when fewer
than two identifiers are extracted or the first extracted identifier is
empty; consequently a returned market record never has an empty first
(YES-side) identifier — the second identifier is not validated and may be
empty. -/
theorem claim_C8 (m : MarketObj) :
    (extractTokens m = none ↔
      ((extractIds m).length < 2 ∨ (extractIds m).headD "" = "")) ∧
    (∀ y n, extractTokens m = some (y, n) → y ≠ "") := by
  constructor
  · simp only [extractTokens]
    split_ifs with h
    · exact iff_of_true rfl h
    · exact iff_of_false (by simp) h
  · intro y n h
    simp only [extractTokens] at h
    by_cases hg : ((extractIds m).length < 2 ∨ (extractIds m).headD "" = "")
    · rw [if_pos hg] at h
      exact Option.noConfusion h
    · rw [if_neg hg] at h
      push_neg at hg
      have hy : (extractIds m).headD "" = y := congrArg Prod.fst (Option.some.inj h)
      rw [← hy]
      exact hg.2

/-- Witness for C8 (amended) on a well-formed two-token market object. -/
theorem claim_C8_witness : "tokA" ≠ "" :=
  (claim_C8 ⟨some ["tokA", "tokB"], none⟩).2 "tokA" "tokB" (by decide)

/-- C9: writing `default_size=40` through the `--set` pipeline stores the
value coerced to its declared float type, and a reload then yields the
float 40 for `default_size`; a `--set` naming a key outside the six schema
keys is rejected with no write to the configuration file. -/
theorem claim_C9 (file : List (String × JVal)) (env : String → Option String) :
    ((setCommand [("default_size", "40")] file).map
        (fun f => (load_config f env).lookup "default_size"))
      = some (some (JVal.jfloat 40)) ∧
    (∀ k v, schemaEntry? k = none → setCommand [(k, v)] file = none) := by
  constructor
  · have hbu : buildUpdates [("default_size", "40")]
        = some [("default_size", JVal.jfloat 40)] := by decide
    have hupd : update_config file [("default_size", JVal.jfloat 40)]
        = dictUpdate file "default_size" (JVal.jfloat 40) := rfl
    have hlook : (dictUpdate file "default_size" (JVal.jfloat 40)).lookup
        "default_size" = some (JVal.jfloat 40) := lookup_dictUpdate file _ _
    simp only [setCommand, hbu, Option.map_some', Option.some.injEq, hupd]
    simp only [load_config, CONFIG_SCHEMA, List.map_cons, List.map_nil,
      List.lookup, beq_self_eq_true, hlook]
  · intro k v hk
    simp [setCommand, buildUpdates, hk]

/-- Witness for C9 at an empty configuration file and environment, with the
unknown key `bogus`. -/
theorem claim_C9_witness :
    ((setCommand [("default_size", "40")] []).map
        (fun f => (load_config f (fun _ => none)).lookup "default_size"))
      = some (some (JVal.jfloat 40)) ∧
    setCommand [("bogus", "1")] [] = none :=
  ⟨(claim_C9 [] (fun _ => none)).1,
   (claim_C9 [] (fun _ => none)).2 "bogus" "1" (by decide)⟩

end Btc5m
